import Mathlib

set_option maxHeartbeats 1000000

/-!
Shallow embedding of the `fbx-binary-reader` crate (a streaming pull-parser for
the binary FBX format).

Modelling conventions:
* A byte source (`std::io::Read`) is a `List Nat` of remaining bytes; every
  primitive read consumes from the front and fails (`none`) exactly when the
  stream is too short, matching `byteorder`'s little-endian reads over a
  finite stream.
* Machine integers are `Nat` (unsigned) or `Int` (two's-complement decoded);
  IEEE-754 floats are carried as their raw little-endian bit patterns (`Nat`),
  since no claim computes with float values.
* zlib decompression (`flate2::read::ZlibDecoder`, an external crate) is a
  parameter `inflate : List Nat → Option (List Nat)` of the array decoder;
  theorems quantify over it.
* Rust `Result` is `Except`; fallible in-buffer reads are `Option`.
-/

deriving instance DecidableEq for Except

/-- Read one byte from the front of a stream (`read_u8`). -/
def readU8 : List Nat → Option (Nat × List Nat)
  | [] => none
  | b :: rest => some (b, rest)

/-- Read a little-endian 16-bit unsigned integer. -/
def readU16 : List Nat → Option (Nat × List Nat)
  | b0 :: b1 :: rest => some (b0 + b1 * 256, rest)
  | _ => none

/-- Read a little-endian 32-bit unsigned integer (`read_u32::<LittleEndian>`). -/
def readU32 : List Nat → Option (Nat × List Nat)
  | b0 :: b1 :: b2 :: b3 :: rest =>
    some (b0 + b1 * 256 + b2 * 65536 + b3 * 16777216, rest)
  | _ => none

/-- Read a little-endian 64-bit unsigned integer (`read_u64::<LittleEndian>`). -/
def readU64 : List Nat → Option (Nat × List Nat)
  | b0 :: b1 :: b2 :: b3 :: b4 :: b5 :: b6 :: b7 :: rest =>
    some (b0 + b1 * 256 + b2 * 65536 + b3 * 16777216 + b4 * 4294967296 +
          b5 * 1099511627776 + b6 * 281474976710656 + b7 * 72057594037927936, rest)
  | _ => none

/-- Reinterpret a `w`-bit unsigned value as two's-complement signed. -/
def toSigned (w : Nat) (n : Nat) : Int :=
  if n < 2 ^ (w - 1) then (n : Int) else (n : Int) - 2 ^ w

/-- Read a little-endian 16-bit signed integer (`read_i16::<LittleEndian>`). -/
def readI16LE (s : List Nat) : Option (Int × List Nat) :=
  (readU16 s).map (fun p => (toSigned 16 p.1, p.2))

/-- Read a little-endian 32-bit signed integer (`read_i32::<LittleEndian>`). -/
def readI32LE (s : List Nat) : Option (Int × List Nat) :=
  (readU32 s).map (fun p => (toSigned 32 p.1, p.2))

/-- Read a little-endian 64-bit signed integer (`read_i64::<LittleEndian>`). -/
def readI64LE (s : List Nat) : Option (Int × List Nat) :=
  (readU64 s).map (fun p => (toSigned 64 p.1, p.2))

/-- Read exactly `n` bytes (`read_exact`): fails when the stream is shorter. -/
def readExact (n : Nat) (s : List Nat) : Option (List Nat × List Nat) :=
  if n ≤ s.length then some (s.take n, s.drop n) else none

/-- Little-endian value of a byte list (base-256, least significant first).
This is the specification-side meaning of "three little-endian u32/u64 values"
used to state the header-layout claims. -/
def leNat : List Nat → Nat
  | [] => 0
  | b :: rest => b + 256 * leNat rest

/-- UTF-8 validation and decoding to a list of Unicode scalar values, the
meaning of Rust's `String::from_utf8` / `str::from_utf8` success: rejects
overlong forms, surrogates (via the `0xED` row), and values above `0x10FFFF`
(via the `0xF4` row), exactly as Rust does. -/
def utf8Decode : List Nat → Option (List Nat)
  | [] => some []
  | b0 :: rest =>
    if b0 < 128 then
      (utf8Decode rest).map (fun cs => b0 :: cs)
    else if b0 < 194 then none
    else if b0 < 224 then
      match rest with
      | b1 :: rest2 =>
        if 128 ≤ b1 ∧ b1 < 192 then
          (utf8Decode rest2).map (fun cs => ((b0 - 192) * 64 + (b1 - 128)) :: cs)
        else none
      | [] => none
    else if b0 < 240 then
      match rest with
      | b1 :: b2 :: rest3 =>
        if (if b0 = 224 then 160 else 128) ≤ b1 ∧ b1 < (if b0 = 237 then 160 else 192) ∧
            128 ≤ b2 ∧ b2 < 192 then
          (utf8Decode rest3).map
            (fun cs => ((b0 - 224) * 4096 + (b1 - 128) * 64 + (b2 - 128)) :: cs)
        else none
      | _ => none
    else if b0 < 245 then
      match rest with
      | b1 :: b2 :: b3 :: rest4 =>
        if (if b0 = 240 then 144 else 128) ≤ b1 ∧ b1 < (if b0 = 244 then 144 else 192) ∧
            128 ≤ b2 ∧ b2 < 192 ∧ 128 ≤ b3 ∧ b3 < 192 then
          (utf8Decode rest4).map
            (fun cs => ((b0 - 240) * 262144 + (b1 - 128) * 4096 + (b2 - 128) * 64 + (b3 - 128)) :: cs)
        else none
      | _ => none
    else none

/-- Error taxonomy of `src/error.rs`. `IoError` stands for `Error::Io(..)`;
in the byte-list model the only I/O failure is running out of bytes, and
`Clone for Error` preserves variant and message, so cloning is the identity
here. -/
inductive PError where
  | Utf8Error
  | InvalidMagic
  | IoError
  | DataError (msg : String)
  | UnexpectedValue (msg : String)
  | UnexpectedEof
  | Unimplemented (msg : String)
deriving Repr, DecidableEq

/-- Parser states (`enum State` in `src/reader/parser.rs`); `Error` holds the
latched error. -/
inductive ParserState where
  | ReadingMagic
  | ReadingNodes
  | SuccessfullyFinished
  | Error (e : PError)
deriving Repr, DecidableEq

/-- Owned property blob of one node (`DelayedProperties` in `src/property.rs`). -/
structure DelayedProperties where
  buffer : List Nat
  num_properties : Nat
deriving Repr, DecidableEq

/-- Constructor `DelayedProperties::from_vec_u8` (the version argument is
ignored by the source). -/
def DelayedProperties.from_vec_u8 (vec : List Nat) (_version : Int) (num_properties : Nat) :
    DelayedProperties :=
  { buffer := vec, num_properties := num_properties }

/-- Events of `src/event.rs`; `StartFbx` carries `FbxHeaderInfo.version` and a
node name is carried as its decoded Unicode scalar values. -/
inductive FbxEvent where
  | StartFbx (version : Int)
  | EndFbx
  | StartNode (name : List Nat) (properties : DelayedProperties)
  | EndNode
deriving Repr, DecidableEq

/-- Per-node framing header (`NodeRecordHeader`). -/
structure NodeRecordHeader where
  end_offset : Nat
  num_properties : Nat
  property_byte_len : Nat
  name_len : Nat
deriving Repr, DecidableEq

/-- Header decode (`NodeRecordHeader::read_from`): for `version < 7500` three
little-endian u32 fields widened to u64, otherwise three little-endian u64
fields; then a one-byte `name_len`. On failure the error carries the position
and stream at the failing read (the parser's `pos` only advances for reads
that succeeded). -/
def NodeRecordHeader.read_from (src : List Nat) (pos : Nat) (fbx_version : Int) :
    Except (Nat × List Nat) (NodeRecordHeader × Nat × List Nat) :=
  if fbx_version < 7500 then
    match readU32 src with
    | none => .error (pos, src)
    | some (end_offset, s1) =>
      match readU32 s1 with
      | none => .error (pos + 4, s1)
      | some (num_properties, s2) =>
        match readU32 s2 with
        | none => .error (pos + 8, s2)
        | some (property_byte_len, s3) =>
          match readU8 s3 with
          | none => .error (pos + 12, s3)
          | some (name_len, s4) =>
            .ok (⟨end_offset, num_properties, property_byte_len, name_len⟩, pos + 13, s4)
  else
    match readU64 src with
    | none => .error (pos, src)
    | some (end_offset, s1) =>
      match readU64 s1 with
      | none => .error (pos + 8, s1)
      | some (num_properties, s2) =>
        match readU64 s2 with
        | none => .error (pos + 16, s2)
        | some (property_byte_len, s3) =>
          match readU8 s3 with
          | none => .error (pos + 24, s3)
          | some (name_len, s4) =>
            .ok (⟨end_offset, num_properties, property_byte_len, name_len⟩, pos + 25, s4)

/-- Null-record test (`NodeRecordHeader::is_null_record`). -/
def NodeRecordHeader.is_null_record (h : NodeRecordHeader) : Bool :=
  h.end_offset = 0 && h.num_properties = 0 && h.property_byte_len = 0 && h.name_len = 0

/-- Parser value (`struct Parser`); the end-offset stack keeps its top at the
head (Rust pushes/pops/inspects the `Vec`'s tail). -/
structure Parser where
  state : ParserState
  version : Int
  pos : Nat
  end_offset_stack : List Nat
deriving Repr, DecidableEq

/-- Constructor `Parser::new` (`version` starts at `i32::MIN`). -/
def Parser.new : Parser :=
  { state := .ReadingMagic, version := -2147483648, pos := 0, end_offset_stack := [] }

/-- Bytes of the magic literal `b"Kaydara FBX Binary  \0"`. -/
def fbxMagic : List Nat :=
  [75, 97, 121, 100, 97, 114, 97, 32, 70, 66, 88, 32, 66, 105, 110, 97, 114, 121, 32, 32, 0]

/-- The message built by `nodes_next` when a node does not end where its header
promised. -/
def nodeEndMsg (expected : Nat) (now : Nat) : String :=
  "Node does not end at expected position (expected " ++ toString expected ++
    ", now at " ++ toString now ++ ")"

/-- State `ReadingMagic` (`Parser::magic_next`): consume the 21-byte magic
(mismatch is `InvalidMagic`), two warn-only bytes, and the little-endian i32
version; store the version and move to `ReadingNodes`. -/
def Parser.magic_next (p : Parser) (src : List Nat) :
    Except PError FbxEvent × Parser × List Nat :=
  match readExact 21 src with
  | none => (.error .IoError, p, src)
  | some (magic, src1) =>
    let p1 := { p with pos := p.pos + 21 }
    if magic ≠ fbxMagic then (.error .InvalidMagic, p1, src1)
    else
      match readExact 2 src1 with
      | none => (.error .IoError, p1, src1)
      | some (_, src2) =>
        let p2 := { p1 with pos := p1.pos + 2 }
        match readI32LE src2 with
        | none => (.error .IoError, p2, src2)
        | some (version, src3) =>
          (.ok (.StartFbx version),
           { p2 with pos := p2.pos + 4, version := version, state := .ReadingNodes }, src3)

/-- Body of `Parser::nodes_next` after the stack-top pre-check: read a record
header; on a null record pop and validate (or finish when the stack is empty);
otherwise push `end_offset`, read the UTF-8 name and the property bytes, and
emit `StartNode`. -/
def Parser.nodes_next_body (p : Parser) (src : List Nat) :
    Except PError FbxEvent × Parser × List Nat :=
  match NodeRecordHeader.read_from src p.pos p.version with
  | .error (pos1, src1) => (.error .IoError, { p with pos := pos1 }, src1)
  | .ok (hdr, pos1, src1) =>
    if hdr.is_null_record then
      match p.end_offset_stack with
      | expected :: rest =>
        if pos1 = expected then
          (.ok .EndNode, { p with pos := pos1, end_offset_stack := rest }, src1)
        else
          (.error (.DataError (nodeEndMsg expected pos1)),
           { p with pos := pos1, end_offset_stack := rest }, src1)
      | [] => (.ok .EndFbx, { p with pos := pos1 }, src1)
    else
      let stack1 := hdr.end_offset :: p.end_offset_stack
      match readExact hdr.name_len src1 with
      | none => (.error .IoError, { p with pos := pos1, end_offset_stack := stack1 }, src1)
      | some (nameBytes, src2) =>
        let pos2 := pos1 + hdr.name_len
        match utf8Decode nameBytes with
        | none => (.error .Utf8Error, { p with pos := pos2, end_offset_stack := stack1 }, src2)
        | some name =>
          match readExact hdr.property_byte_len src2 with
          | none => (.error .IoError, { p with pos := pos2, end_offset_stack := stack1 }, src2)
          | some (propBytes, src3) =>
            (.ok (.StartNode name (DelayedProperties.from_vec_u8 propBytes p.version hdr.num_properties)),
             { p with pos := pos2 + hdr.property_byte_len, end_offset_stack := stack1 }, src3)

/-- State `ReadingNodes` (`Parser::nodes_next`): first the defensive pre-check
popping an `EndNode` when the stack top equals `pos`, then the record-header
path. -/
def Parser.nodes_next (p : Parser) (src : List Nat) :
    Except PError FbxEvent × Parser × List Nat :=
  match p.end_offset_stack with
  | top :: rest =>
    if top = p.pos then (.ok .EndNode, { p with end_offset_stack := rest }, src)
    else p.nodes_next_body src
  | [] => p.nodes_next_body src

/-- Post-processing in `Parser::next`: `Ok(EndFbx)` latches
`SuccessfullyFinished`, any error latches `Error(e)`. -/
def Parser.finishResult (r : Except PError FbxEvent) (p : Parser) (src : List Nat) :
    Except PError FbxEvent × Parser × List Nat :=
  match r with
  | .ok .EndFbx => (r, { p with state := .SuccessfullyFinished }, src)
  | .error e => (r, { p with state := .Error e }, src)
  | _ => (r, p, src)

/-- Entry point `Parser::next`: dispatch on the state; the terminal states
return immediately (the stored error is cloned, which preserves variant and
message, hence identity here). -/
def Parser.next (p : Parser) (src : List Nat) :
    Except PError FbxEvent × Parser × List Nat :=
  match p.state with
  | .SuccessfullyFinished => (.ok .EndFbx, p, src)
  | .Error e => (.error e, p, src)
  | .ReadingMagic =>
    let r := p.magic_next src
    Parser.finishResult r.1 r.2.1 r.2.2
  | .ReadingNodes =>
    let r := p.nodes_next src
    Parser.finishResult r.1 r.2.1 r.2.2

/-- Rust's `Result<T, E>` carried inside a property value (`ok` mirrors `Ok`,
`err` mirrors `Err`). -/
inductive RResult (α : Type) (β : Type) where
  | ok (val : α)
  | err (e : β)
deriving Repr, DecidableEq

/-- Node property values (`enum Property` of `src/property.rs`). Strings are
carried as decoded Unicode scalar values on the `ok` arm and as the raw bytes
on the `err` arm; float scalars and float arrays carry raw little-endian bit
patterns. -/
inductive Property where
  | Bool (b : Bool)
  | I16 (v : Int)
  | I32 (v : Int)
  | I64 (v : Int)
  | F32 (bits : Nat)
  | F64 (bits : Nat)
  | String (s : RResult (List Nat) (List Nat))
  | Binary (b : List Nat)
  | VecBool (v : List Bool)
  | VecI32 (v : List Int)
  | VecI64 (v : List Int)
  | VecF32 (v : List Nat)
  | VecF64 (v : List Nat)
deriving Repr, DecidableEq

/-- Array-property framing header (`struct ArrayHeader`). -/
structure ArrayHeader where
  num_elements : Nat
  encoding : Nat
  compressed_length : Nat
deriving Repr, DecidableEq

/-- Header decode (`ArrayHeader::from_binary`): twelve bytes as three
little-endian u32 fields, returned with the consumed length. -/
def ArrayHeader.from_binary (source : List Nat) : Option (ArrayHeader × Nat) :=
  match readU32 source with
  | none => none
  | some (num_elements, s1) =>
    match readU32 s1 with
    | none => none
    | some (encoding, s2) =>
      match readU32 s2 with
      | none => none
      | some (compressed_length, _) =>
        some (⟨num_elements, encoding, compressed_length⟩, 12)

/-- Read `n` consecutive elements with a one-element reader, failing if any
read fails (the `for _ in 0..num_elements { try_opt!(..) }` loops). -/
def readElems {α : Type} (read1 : List Nat → Option (α × List Nat)) :
    Nat → List Nat → Option (List α)
  | 0, _ => some []
  | n + 1, s =>
    match read1 s with
    | none => none
    | some (v, s1) => (readElems read1 n s1).map (fun vs => v :: vs)

/-- Read one boolean array element (`read_u8` then `& 1 == 1`; the canonical
'T'/'Y' check is skipped for arrays). -/
def readBoolElem (s : List Nat) : Option (Bool × List Nat) :=
  (readU8 s).map (fun p => (p.1 % 2 == 1, p.2))

/-- Decode the element stream of an array property
(`read_property_array_from_plain_stream`). Callers only pass the five array
type codes; any other code answers `none` (the source marks it
`unreachable!()`). -/
def read_property_array_from_plain_stream (s : List Nat) (header : ArrayHeader)
    (type_code : Nat) : Option Property :=
  if type_code = 98 then
    (readElems readBoolElem header.num_elements s).map Property.VecBool
  else if type_code = 105 then
    (readElems readI32LE header.num_elements s).map Property.VecI32
  else if type_code = 108 then
    (readElems readI64LE header.num_elements s).map Property.VecI64
  else if type_code = 102 then
    (readElems readU32 header.num_elements s).map Property.VecF32
  else if type_code = 100 then
    (readElems readU64 header.num_elements s).map Property.VecF64
  else none

/-- Dispatch on the array encoding (`read_property_array`): 0 reads the plain
payload, 1 reads the zlib-inflated payload (`inflate` stands for
`flate2::read::ZlibDecoder`; `none` is a decompression failure), anything else
is a diagnostic and `none`. -/
def read_property_array (inflate : List Nat → Option (List Nat)) (buffer : List Nat)
    (header : ArrayHeader) (type_code : Nat) : Option Property :=
  if header.encoding = 0 then
    read_property_array_from_plain_stream buffer header type_code
  else if header.encoding = 1 then
    match inflate buffer with
    | none => none
    | some decompressed => read_property_array_from_plain_stream decompressed header type_code
  else none

/-- Cursor over one property buffer (`struct PropertiesIter`). -/
structure PropertiesIter where
  buffer : List Nat
  rest_properties : Nat
deriving Repr, DecidableEq

/-- Iterator construction (`DelayedProperties::iter`). -/
def DelayedProperties.iter (d : DelayedProperties) : PropertiesIter :=
  { buffer := d.buffer, rest_properties := d.num_properties }

/-- Shared shape of the `PropertiesIter::read_*` helpers: too-short data zeroes
`rest_properties` and yields `none` without consuming; otherwise the bytes are
consumed. -/
def PropertiesIter.readWith {α : Type} (read1 : List Nat → Option (α × List Nat))
    (it : PropertiesIter) : Option α × PropertiesIter :=
  match read1 it.buffer with
  | none => (none, { it with rest_properties := 0 })
  | some (v, rest) => (some v, { it with buffer := rest })

/-- Helper `PropertiesIter::read_u8`. -/
def PropertiesIter.read_u8 (it : PropertiesIter) : Option Nat × PropertiesIter :=
  it.readWith readU8

/-- Helper `PropertiesIter::read_u32`. -/
def PropertiesIter.read_u32 (it : PropertiesIter) : Option Nat × PropertiesIter :=
  it.readWith readU32

/-- Helper `PropertiesIter::read_i16`. -/
def PropertiesIter.read_i16 (it : PropertiesIter) : Option Int × PropertiesIter :=
  it.readWith readI16LE

/-- Helper `PropertiesIter::read_i32`. -/
def PropertiesIter.read_i32 (it : PropertiesIter) : Option Int × PropertiesIter :=
  it.readWith readI32LE

/-- Helper `PropertiesIter::read_i64`. -/
def PropertiesIter.read_i64 (it : PropertiesIter) : Option Int × PropertiesIter :=
  it.readWith readI64LE

/-- Helper `PropertiesIter::read_f32` (bit pattern). -/
def PropertiesIter.read_f32 (it : PropertiesIter) : Option Nat × PropertiesIter :=
  it.readWith readU32

/-- Helper `PropertiesIter::read_f64` (bit pattern). -/
def PropertiesIter.read_f64 (it : PropertiesIter) : Option Nat × PropertiesIter :=
  it.readWith readU64

/-- Shape of the Rust macro `read_primitive_prop!`: run a `read_*` helper,
propagate its failure, otherwise decrement the remaining count and wrap the
value in the given variant. -/
def PropertiesIter.read_primitive_prop {α : Type}
    (read_fun : PropertiesIter → Option α × PropertiesIter) (variant : α → Property)
    (it : PropertiesIter) : Option Property × PropertiesIter :=
  match read_fun it with
  | (none, it1) => (none, it1)
  | (some v, it1) => (some (variant v), { it1 with rest_properties := it1.rest_properties - 1 })

/-- One pull of the property iterator (`impl Iterator for PropertiesIter`,
`fn next`). Type codes are the ASCII bytes C=67, Y=89, I=73, L=76, F=70,
D=68, S=83, R=82, b=98, i=105, l=108, f=102, d=100. -/
def PropertiesIter.next (inflate : List Nat → Option (List Nat)) (it : PropertiesIter) :
    Option Property × PropertiesIter :=
  if it.rest_properties = 0 then (none, it)
  else
    match it.read_u8 with
    | (none, it1) => (none, it1)
    | (some type_code, it1) =>
      if type_code = 67 then
        match it1.read_u8 with
        | (none, it2) => (none, it2)
        | (some val, it2) =>
          (some (.Bool (val % 2 == 1)), { it2 with rest_properties := it2.rest_properties - 1 })
      else if type_code = 89 then
        it1.read_primitive_prop PropertiesIter.read_i16 Property.I16
      else if type_code = 73 then
        it1.read_primitive_prop PropertiesIter.read_i32 Property.I32
      else if type_code = 76 then
        it1.read_primitive_prop PropertiesIter.read_i64 Property.I64
      else if type_code = 70 then
        it1.read_primitive_prop PropertiesIter.read_f32 Property.F32
      else if type_code = 68 then
        it1.read_primitive_prop PropertiesIter.read_f64 Property.F64
      else if type_code = 83 then
        match it1.read_u32 with
        | (none, it2) => (none, it2)
        | (some length, it2) =>
          if it2.buffer.length < length then (none, { it2 with rest_properties := 0 })
          else
            let buf := it2.buffer.take length
            let it3 : PropertiesIter :=
              { buffer := it2.buffer.drop length, rest_properties := it2.rest_properties - 1 }
            match utf8Decode buf with
            | some cs => (some (.String (.ok cs)), it3)
            | none => (some (.String (.err buf)), it3)
      else if type_code = 82 then
        match it1.read_u32 with
        | (none, it2) => (none, it2)
        | (some length, it2) =>
          if it2.buffer.length < length then (none, { it2 with rest_properties := 0 })
          else
            (some (.Binary (it2.buffer.take length)),
             { buffer := it2.buffer.drop length, rest_properties := it2.rest_properties - 1 })
      else if type_code = 98 ∨ type_code = 105 ∨ type_code = 108 ∨
              type_code = 102 ∨ type_code = 100 then
        match ArrayHeader.from_binary it1.buffer with
        | none => (none, { it1 with rest_properties := 0 })
        | some (header, length) =>
          let it2 : PropertiesIter := { it1 with buffer := it1.buffer.drop length }
          if it2.buffer.length < header.compressed_length then
            (none, { it2 with rest_properties := 0 })
          else
            let buf := it2.buffer.take header.compressed_length
            let it3 : PropertiesIter :=
              { it2 with buffer := it2.buffer.drop header.compressed_length }
            match read_property_array inflate buf header type_code with
            | some val => (some val, { it3 with rest_properties := it3.rest_properties - 1 })
            | none => (none, { it3 with rest_properties := 0 })
      else (none, { it1 with rest_properties := 0 })

/-- Iterator `size_hint`: always `(0, Some(rest_properties))`. -/
def PropertiesIter.size_hint (it : PropertiesIter) : Nat × Option Nat :=
  (0, some it.rest_properties)

/-- Drain the iterator with fuel, collecting yielded values in order (the
meaning of iterating until the first `None`). -/
def PropertiesIter.collect (inflate : List Nat → Option (List Nat)) :
    Nat → PropertiesIter → List Property
  | 0, _ => []
  | fuel + 1, it =>
    match PropertiesIter.next inflate it with
    | (none, _) => []
    | (some v, it1) => v :: PropertiesIter.collect inflate fuel it1

/-- Accessor `Property::as_i32`: widening from `I16` only (64-to-32 narrowing
is not offered). -/
def Property.as_i32 : Property → Option Int
  | .I16 v => some v
  | .I32 v => some v
  | _ => none

/-- Accessor `Property::as_i64`: widening from `I16` and `I32`. -/
def Property.as_i64 : Property → Option Int
  | .I16 v => some v
  | .I32 v => some v
  | .I64 v => some v
  | _ => none

/-- Accessor `Property::as_f32` (`f64_to_f32` stands for Rust's `as f32`
narrowing on the bit patterns). -/
def Property.as_f32 (f64_to_f32 : Nat → Nat) : Property → Option Nat
  | .F32 v => some v
  | .F64 v => some (f64_to_f32 v)
  | _ => none

/-- Accessor `Property::as_f64` (`f32_to_f64` stands for Rust's `as f64`
widening on the bit patterns). -/
def Property.as_f64 (f32_to_f64 : Nat → Nat) : Property → Option Nat
  | .F32 v => some (f32_to_f64 v)
  | .F64 v => some v
  | _ => none

/-- Accessor `Property::as_vec_i64` (elementwise `as i64`, the identity on the
integer carrier). -/
def Property.as_vec_i64 : Property → Option (List Int)
  | .VecI32 v => some (v.map (fun x => x))
  | .VecI64 v => some v
  | _ => none

/-- Accessor `Property::as_vec_f32` (elementwise `as f32`). -/
def Property.as_vec_f32 (f64_to_f32 : Nat → Nat) : Property → Option (List Nat)
  | .VecF32 v => some v
  | .VecF64 v => some (v.map f64_to_f32)
  | _ => none

/-- Accessor `Property::as_vec_f64` (elementwise `as f64`). -/
def Property.as_vec_f64 (f32_to_f64 : Nat → Nat) : Property → Option (List Nat)
  | .VecF32 v => some (v.map f32_to_f64)
  | .VecF64 v => some v
  | _ => none

/-- Run the parser from a given configuration, collecting the events it emits,
until `EndFbx` (success, `EndFbx` included in the list), an error, or fuel
exhaustion (`none`). -/
def runFrom : Nat → Parser → List Nat → Option (List FbxEvent × Option PError)
  | 0, _, _ => none
  | fuel + 1, p, src =>
    match Parser.next p src with
    | (.error e, _, _) => some ([], some e)
    | (.ok ev, p1, src1) =>
      match ev with
      | .EndFbx => some ([.EndFbx], none)
      | _ =>
        match runFrom fuel p1 src1 with
        | none => none
        | some (evs, res) => some (ev :: evs, res)

/-- Balance of the node-event part of an event list at nesting depth `d`:
`StartNode` descends, `EndNode` ascends (never below zero), and the list ends
with exactly one `EndFbx` at depth zero; any interior `StartFbx` or `EndFbx`
is unbalanced. -/
def balancedTail : List FbxEvent → Nat → Bool
  | [FbxEvent.EndFbx], 0 => true
  | FbxEvent.StartNode _ _ :: rest, d => balancedTail rest (d + 1)
  | FbxEvent.EndNode :: rest, d + 1 => balancedTail rest d
  | _, _ => false

/-- Balance of a full event list: exactly one leading `StartFbx`, matched
`StartNode`/`EndNode` nesting, exactly one trailing `EndFbx`. -/
def balanced (evs : List FbxEvent) : Bool :=
  match evs with
  | FbxEvent.StartFbx _ :: rest => balancedTail rest 0
  | _ => false

/-! ## Helper lemmas -/

/-- Inversion of `finishResult` on an error: the latched state records the
error, everything else is untouched. -/
theorem finishResult_error_inv (r : Except PError FbxEvent) (q : Parser) (s : List Nat)
    (e : PError) (p1 : Parser) (s1 : List Nat)
    (h : Parser.finishResult r q s = (.error e, p1, s1)) :
    r = .error e ∧ p1 = { q with state := .Error e } ∧ s1 = s := by
  cases r with
  | error e0 =>
    simp [Parser.finishResult] at h
    obtain ⟨h1, h2, h3⟩ := h
    subst h1; subst h2; subst h3
    exact ⟨rfl, rfl, rfl⟩
  | ok ev => cases ev <;> simp [Parser.finishResult] at h

/-- A parser whose state holds an error replays that error and does not touch
the source. -/
theorem next_error_state (p : Parser) (e : PError) (h : p.state = .Error e) :
    ∀ src, Parser.next p src = (.error e, p, src) := by
  intro src
  obtain ⟨st, ver, pos, stk⟩ := p
  simp only [Parser.mk.injEq] at h ⊢
  cases st <;> simp_all [Parser.next]

/-- Whenever `next` returns an error, the resulting parser's state is the
latched error state. -/
theorem next_error_latches (p : Parser) (src : List Nat) (e : PError) (p1 : Parser)
    (src1 : List Nat) (h : Parser.next p src = (.error e, p1, src1)) :
    p1.state = .Error e := by
  obtain ⟨st, ver, pos, stk⟩ := p
  cases st with
  | SuccessfullyFinished => simp [Parser.next] at h
  | Error e0 =>
    simp [Parser.next] at h
    obtain ⟨h1, h2, _⟩ := h
    subst h1
    rw [← h2]
  | ReadingMagic =>
    simp only [Parser.next] at h
    obtain ⟨_, h2, _⟩ := finishResult_error_inv _ _ _ _ _ _ h
    subst h2
    rfl
  | ReadingNodes =>
    simp only [Parser.next] at h
    obtain ⟨_, h2, _⟩ := finishResult_error_inv _ _ _ _ _ _ h
    subst h2
    rfl

/-! ## C10: terminal states are frames -/

/-- C10: in the `SuccessfullyFinished` and `Failed` states, `Parser::next`
returns immediately — the source is not read (it is returned unchanged) and
the parser (its `pos`, `version` and end-offset stack) is unchanged. -/
theorem C10_terminal_states_frame (p : Parser) (src : List Nat) :
    (p.state = .SuccessfullyFinished → Parser.next p src = (.ok .EndFbx, p, src)) ∧
    (∀ e, p.state = .Error e → Parser.next p src = (.error e, p, src)) := by
  constructor
  · intro h
    obtain ⟨st, ver, pos, stk⟩ := p
    cases st <;> simp_all [Parser.next]
  · intro e h
    exact next_error_state p e h src

/-- Witness for C10 at a concrete finished parser and a concrete error
parser. -/
theorem C10_terminal_states_frame_witness :
    Parser.next ⟨.SuccessfullyFinished, 7400, 27, []⟩ [1, 2] =
      (.ok .EndFbx, ⟨.SuccessfullyFinished, 7400, 27, []⟩, [1, 2]) ∧
    Parser.next ⟨.Error .InvalidMagic, -2147483648, 21, []⟩ [9] =
      (.error .InvalidMagic, ⟨.Error .InvalidMagic, -2147483648, 21, []⟩, [9]) :=
  ⟨(C10_terminal_states_frame ⟨.SuccessfullyFinished, 7400, 27, []⟩ [1, 2]).1 rfl,
   (C10_terminal_states_frame ⟨.Error .InvalidMagic, -2147483648, 21, []⟩ [9]).2
     .InvalidMagic rfl⟩

/-! ## C3: errors latch -/

/-- C3: once a call to `next` has returned an error, every subsequent call
returns the same error (variant and message), never another event, and the
parser no longer changes. -/
theorem C3_error_latched (p : Parser) (src : List Nat) (e : PError) (p1 : Parser)
    (src1 : List Nat) (h : Parser.next p src = (.error e, p1, src1)) :
    ∀ src2, Parser.next p1 src2 = (.error e, p1, src2) :=
  next_error_state p1 e (next_error_latches p src e p1 src1 h)

/-- Witness for C3: a truncated source fails with an I/O error, and the next
pull replays it. -/
theorem C3_error_latched_witness :
    Parser.next ⟨.Error .IoError, -2147483648, 0, []⟩ [7] =
      (.error .IoError, ⟨.Error .IoError, -2147483648, 0, []⟩, [7]) :=
  C3_error_latched Parser.new [] .IoError ⟨.Error .IoError, -2147483648, 0, []⟩ []
    (by decide) [7]

/-! ## C4: node-record-header layout -/

/-- C4: `NodeRecordHeader::read_from` decodes the three length fields as three
little-endian u32 values (widened to u64) when the recorded version is below
7500, and as three little-endian u64 values from 7500 on, followed in both
cases by one `name_len` byte. -/
theorem C4_header_layout :
    (∀ (ver : Int) (pos : Nat) (b0 b1 b2 b3 b4 b5 b6 b7 b8 b9 b10 b11 b12 : Nat)
        (rest : List Nat), ver < 7500 →
      NodeRecordHeader.read_from
          (b0 :: b1 :: b2 :: b3 :: b4 :: b5 :: b6 :: b7 :: b8 :: b9 :: b10 :: b11 :: b12 :: rest)
          pos ver =
        .ok (⟨leNat [b0, b1, b2, b3], leNat [b4, b5, b6, b7], leNat [b8, b9, b10, b11], b12⟩,
              pos + 13, rest)) ∧
    (∀ (ver : Int) (pos : Nat)
        (c0 c1 c2 c3 c4 c5 c6 c7 c8 c9 c10 c11 c12 c13 c14 c15 c16 c17 c18 c19 c20 c21 c22 c23 c24 : Nat)
        (rest : List Nat), 7500 ≤ ver →
      NodeRecordHeader.read_from
          (c0 :: c1 :: c2 :: c3 :: c4 :: c5 :: c6 :: c7 :: c8 :: c9 :: c10 :: c11 :: c12 :: c13 ::
            c14 :: c15 :: c16 :: c17 :: c18 :: c19 :: c20 :: c21 :: c22 :: c23 :: c24 :: rest)
          pos ver =
        .ok (⟨leNat [c0, c1, c2, c3, c4, c5, c6, c7], leNat [c8, c9, c10, c11, c12, c13, c14, c15],
              leNat [c16, c17, c18, c19, c20, c21, c22, c23], c24⟩, pos + 25, rest)) := by
  constructor
  · intro ver pos b0 b1 b2 b3 b4 b5 b6 b7 b8 b9 b10 b11 b12 rest hver
    simp only [NodeRecordHeader.read_from, if_pos hver, readU32, readU8, leNat,
      Except.ok.injEq, Prod.mk.injEq, NodeRecordHeader.mk.injEq]
    exact ⟨⟨by ring, by ring, by ring, trivial⟩, trivial⟩
  · intro ver pos c0 c1 c2 c3 c4 c5 c6 c7 c8 c9 c10 c11 c12 c13 c14 c15 c16 c17 c18 c19 c20 c21
      c22 c23 c24 rest hver
    have hv : ¬ ver < 7500 := by omega
    simp only [NodeRecordHeader.read_from, if_neg hv, readU64, readU8, leNat,
      Except.ok.injEq, Prod.mk.injEq, NodeRecordHeader.mk.injEq]
    exact ⟨⟨by ring, by ring, by ring, trivial⟩, trivial⟩

/-- Witness for C4 at concrete bytes in both layouts. -/
theorem C4_header_layout_witness :
    NodeRecordHeader.read_from
        [10, 11, 12, 13, 20, 21, 22, 23, 30, 31, 32, 33, 7, 99] 0 7400 =
      .ok (⟨leNat [10, 11, 12, 13], leNat [20, 21, 22, 23], leNat [30, 31, 32, 33], 7⟩,
            13, [99]) ∧
    NodeRecordHeader.read_from
        ([10, 11, 12, 13, 14, 15, 16, 17] ++ [20, 21, 22, 23, 24, 25, 26, 27] ++
          [30, 31, 32, 33, 34, 35, 36, 37] ++ [7, 99]) 0 7500 =
      .ok (⟨leNat [10, 11, 12, 13, 14, 15, 16, 17], leNat [20, 21, 22, 23, 24, 25, 26, 27],
            leNat [30, 31, 32, 33, 34, 35, 36, 37], 7⟩, 25, [99]) :=
  ⟨C4_header_layout.1 7400 0 10 11 12 13 20 21 22 23 30 31 32 33 7 [99] (by decide),
   C4_header_layout.2 7500 0 10 11 12 13 14 15 16 17 20 21 22 23 24 25 26 27
     30 31 32 33 34 35 36 37 7 [99] (by decide)⟩

/-! ## C9: widening accessors are value-preserving -/

/-- C9: the widening accessors preserve the value: `as_i32` and `as_i64` on
`I16(v)` and `as_i64` on `I32(v)` return exactly `v` (the `as i32` / `as i64`
casts are the identity on in-range values), and `as_f64` on `F32(v)` returns
`Some(v as f64)`. -/
theorem C9_widening_value_preserving :
    ∀ (f32_to_f64 : Nat → Nat) (v : Int) (bits : Nat),
      Property.as_i32 (.I16 v) = some v ∧
      Property.as_i64 (.I16 v) = some v ∧
      Property.as_i64 (.I32 v) = some v ∧
      Property.as_f64 f32_to_f64 (.F32 bits) = some (f32_to_f64 bits) := by
  intro f v b
  exact ⟨rfl, rfl, rfl, rfl⟩

/-! ## C8: narrowing accessors (corrected) -/

/-- Counterexample to C8 as stated: `as_i32` on an `I64` value yields `None`,
not `Some(v as i32)` — the `I64 → I32` narrowing is not part of the accessor
set (the source's own conversion table lists only `f64 → f32` as a safe
narrowing). -/
theorem C8_i64_narrowing_absent :
    Property.as_i32 (Property.I64 0) = none ∧
    Property.as_i32 (Property.I64 0) ≠ some 0 := by
  exact ⟨rfl, by decide⟩

/-- C8 (amended): the only narrowing conversions in the safe accessor set are
the float ones — `as_f32` on `F64(v)` yields `Some(v as f32)` and
`as_vec_f32` on `VecF64` narrows elementwise — while `as_i32` on `I64`
yields `None`. -/
theorem C8_narrowing_accessors :
    ∀ (f64_to_f32 : Nat → Nat) (v : Int) (bits : Nat) (vs : List Nat),
      Property.as_f32 f64_to_f32 (.F64 bits) = some (f64_to_f32 bits) ∧
      Property.as_vec_f32 f64_to_f32 (.VecF64 vs) = some (vs.map f64_to_f32) ∧
      Property.as_i32 (.I64 v) = none := by
  intro f v b vs
  exact ⟨rfl, rfl, rfl⟩

/-! ## C2: null-record handling -/

/-- C2: when `nodes_next` reads a null record (and the defensive stack-top
pre-check did not fire), a non-empty stack is popped and `EndNode` is returned
when `pos` equals the popped end offset, otherwise a `DataError` whose message
carries both the expected and the actual position; an empty stack yields
`EndFbx`. -/
theorem C2_null_record (ver : Int) (pos : Nat) (stack src : List Nat)
    (hdr : NodeRecordHeader) (pos1 : Nat) (src1 : List Nat)
    (hpre : ∀ top rest, stack = top :: rest → top ≠ pos)
    (hread : NodeRecordHeader.read_from src pos ver = .ok (hdr, pos1, src1))
    (hnull : hdr.is_null_record = true) :
    (stack = [] →
      Parser.next ⟨.ReadingNodes, ver, pos, stack⟩ src =
        (.ok .EndFbx, ⟨.SuccessfullyFinished, ver, pos1, []⟩, src1)) ∧
    (∀ expected rest, stack = expected :: rest →
      (pos1 = expected →
        Parser.next ⟨.ReadingNodes, ver, pos, stack⟩ src =
          (.ok .EndNode, ⟨.ReadingNodes, ver, pos1, rest⟩, src1)) ∧
      (pos1 ≠ expected →
        Parser.next ⟨.ReadingNodes, ver, pos, stack⟩ src =
          (.error (.DataError (nodeEndMsg expected pos1)),
           ⟨.Error (.DataError (nodeEndMsg expected pos1)), ver, pos1, rest⟩, src1))) := by
  constructor
  · intro hempty
    subst hempty
    simp [Parser.next, Parser.nodes_next, Parser.nodes_next_body, hread, hnull,
      Parser.finishResult]
  · intro expected rest hstk
    subst hstk
    have hne : expected ≠ pos := hpre expected rest rfl
    constructor
    · intro hp
      subst hp
      simp [Parser.next, Parser.nodes_next, Parser.nodes_next_body, hread, hnull, hne,
        Parser.finishResult]
    · intro hp
      simp [Parser.next, Parser.nodes_next, Parser.nodes_next_body, hread, hnull, hne, hp,
        Parser.finishResult]

/-- Witness for C2: a 13-zero-byte record at version 7400 is a null record;
with stack top 13 and the header ending at position 13, `EndNode` comes back,
and with stack top 99 the data error names both positions. -/
theorem C2_null_record_witness :
    Parser.next ⟨.ReadingNodes, 7400, 0, [13]⟩ (List.replicate 13 0) =
      (.ok .EndNode, ⟨.ReadingNodes, 7400, 13, []⟩, []) ∧
    Parser.next ⟨.ReadingNodes, 7400, 0, [99]⟩ (List.replicate 13 0) =
      (.error (.DataError (nodeEndMsg 99 13)),
       ⟨.Error (.DataError (nodeEndMsg 99 13)), 7400, 13, []⟩, []) :=
  ⟨((C2_null_record 7400 0 [13] (List.replicate 13 0) ⟨0, 0, 0, 0⟩ 13 []
      (fun top rest h => by simp at h; omega) (by decide) (by decide)).2 13 [] rfl).1 rfl,
   ((C2_null_record 7400 0 [99] (List.replicate 13 0) ⟨0, 0, 0, 0⟩ 13 []
      (fun top rest h => by simp at h; omega) (by decide) (by decide)).2 99 [] rfl).2
     (by decide)⟩

/-! ## C7: string properties -/

/-- C7: an `S`-type property reads a u32 length and that many bytes; valid
UTF-8 payloads yield `String(Ok(text))`, invalid ones yield the alternative
arm `String(Err(raw bytes))` of the same variant, and in both cases the
iteration continues (the cursor advances past the payload and the remaining
count drops by exactly one, rather than being zeroed). -/
theorem C7_string_property (inflate : List Nat → Option (List Nat))
    (it : PropertiesIter) (len : Nat) (tail tail2 : List Nat)
    (hr : it.rest_properties ≠ 0)
    (hbuf : it.buffer = 83 :: tail)
    (hlen : readU32 tail = some (len, tail2))
    (hfit : len ≤ tail2.length) :
    (∀ cs, utf8Decode (tail2.take len) = some cs →
      PropertiesIter.next inflate it =
        (some (.String (.ok cs)), ⟨tail2.drop len, it.rest_properties - 1⟩)) ∧
    (utf8Decode (tail2.take len) = none →
      PropertiesIter.next inflate it =
        (some (.String (.err (tail2.take len))), ⟨tail2.drop len, it.rest_properties - 1⟩)) := by
  obtain ⟨buf, rest⟩ := it
  simp only at hbuf hr
  subst hbuf
  have hnl : ¬ (tail2.length < len) := by omega
  constructor
  · intro cs hcs
    simp [PropertiesIter.next, PropertiesIter.read_u8, PropertiesIter.read_u32,
      PropertiesIter.readWith, readU8, hlen, hcs, hr, hnl]
  · intro hcs
    simp [PropertiesIter.next, PropertiesIter.read_u8, PropertiesIter.read_u32,
      PropertiesIter.readWith, readU8, hlen, hcs, hr, hnl]

/-- Witness for C7: payload `"hi"` (valid UTF-8) yields the `Ok` arm, payload
`FF FE` (invalid UTF-8) yields the `Err` arm with the raw bytes; neither
zeroes the remaining count below its decrement. -/
theorem C7_string_property_witness :
    PropertiesIter.next (fun _ => none) ⟨[83, 2, 0, 0, 0, 104, 105], 2⟩ =
      (some (.String (.ok [104, 105])), ⟨[], 1⟩) ∧
    PropertiesIter.next (fun _ => none) ⟨[83, 2, 0, 0, 0, 255, 254], 2⟩ =
      (some (.String (.err [255, 254])), ⟨[], 1⟩) :=
  ⟨(C7_string_property (fun _ => none) ⟨[83, 2, 0, 0, 0, 104, 105], 2⟩ 2 [2, 0, 0, 0, 104, 105]
      [104, 105] (by decide) rfl (by decide) (by decide)).1 [104, 105] (by decide),
   (C7_string_property (fun _ => none) ⟨[83, 2, 0, 0, 0, 255, 254], 2⟩ 2 [2, 0, 0, 0, 255, 254]
      [255, 254] (by decide) rfl (by decide) (by decide)).2 (by decide)⟩

/-! ## C6: array properties stay inside their window -/

/-- C6: an array property first reads a 12-byte header of three little-endian
u32 fields, then decodes elements only from the following
`compressed_length`-byte window — the value is a function of exactly that
window — and afterwards the cursor stands exactly at the end of the window
(also when element decoding fails). -/
theorem C6_array_window (inflate : List Nat → Option (List Nat)) (it : PropertiesIter)
    (tc : Nat) (tail : List Nat) (header : ArrayHeader) (len : Nat)
    (hr : it.rest_properties ≠ 0)
    (htc : tc = 98 ∨ tc = 105 ∨ tc = 108 ∨ tc = 102 ∨ tc = 100)
    (hbuf : it.buffer = tc :: tail)
    (hhdr : ArrayHeader.from_binary tail = some (header, len))
    (hwin : header.compressed_length ≤ (tail.drop len).length) :
    (∀ (a0 a1 a2 a3 a4 a5 a6 a7 a8 a9 a10 a11 : Nat) (arest : List Nat),
      ArrayHeader.from_binary
          (a0 :: a1 :: a2 :: a3 :: a4 :: a5 :: a6 :: a7 :: a8 :: a9 :: a10 :: a11 :: arest) =
        some (⟨leNat [a0, a1, a2, a3], leNat [a4, a5, a6, a7], leNat [a8, a9, a10, a11]⟩, 12)) ∧
    len = 12 ∧
    PropertiesIter.next inflate it =
      (match read_property_array inflate ((tail.drop len).take header.compressed_length)
          header tc with
       | some val =>
         (some val, ⟨(tail.drop len).drop header.compressed_length, it.rest_properties - 1⟩)
       | none => (none, ⟨(tail.drop len).drop header.compressed_length, 0⟩)) := by
  refine ⟨?_, ?_, ?_⟩
  · intro a0 a1 a2 a3 a4 a5 a6 a7 a8 a9 a10 a11 arest
    simp only [ArrayHeader.from_binary, readU32, leNat, Option.some.injEq, Prod.mk.injEq,
      ArrayHeader.mk.injEq]
    exact ⟨⟨by ring, by ring, by ring⟩, trivial⟩
  · unfold ArrayHeader.from_binary at hhdr
    repeat' split at hhdr
    all_goals simp_all
  · obtain ⟨buf, rest⟩ := it
    simp only at hbuf hr
    subst hbuf
    have hnl : ¬ ((tail.drop len).length < header.compressed_length) := by omega
    have hwin2 : header.compressed_length ≤ tail.length - len := by simpa using hwin
    rcases htc with h | h | h | h | h <;> subst h <;>
      rcases h2 : read_property_array inflate ((tail.drop len).take header.compressed_length)
        header _ with _ | val <;>
      simp [PropertiesIter.next, PropertiesIter.read_u8, PropertiesIter.readWith, readU8,
        hhdr, hnl, h2, hr] <;>
      (intros; omega)

/-- Witness for C6: a plain-encoded `i` array with two elements inside an
8-byte window, decoded entirely from the window, cursor ending at its end. -/
theorem C6_array_window_witness :
    PropertiesIter.next (fun _ => none)
      ⟨105 :: ([2, 0, 0, 0] ++ [0, 0, 0, 0] ++ [8, 0, 0, 0] ++ [1, 0, 0, 0] ++ [2, 0, 0, 0]),
        3⟩ =
    (some (.VecI32 [1, 2]), ⟨[], 2⟩) :=
  ((C6_array_window (fun _ => none)
      ⟨105 :: ([2, 0, 0, 0] ++ [0, 0, 0, 0] ++ [8, 0, 0, 0] ++ [1, 0, 0, 0] ++ [2, 0, 0, 0]),
        3⟩ 105
      ([2, 0, 0, 0] ++ [0, 0, 0, 0] ++ [8, 0, 0, 0] ++ [1, 0, 0, 0] ++ [2, 0, 0, 0]) ⟨2, 0, 8⟩ 12
      (by decide) (by decide) rfl (by decide) (by decide)).2.2).trans (by decide)

/-! ## C5: truncation policy of the property iterator -/

/-- Failing `read_*` helpers zero the remaining count. -/
theorem readWith_none_rest {α : Type} (f : List Nat → Option (α × List Nat))
    (it it' : PropertiesIter) (h : PropertiesIter.readWith f it = (none, it')) :
    it' = { it with rest_properties := 0 } := by
  unfold PropertiesIter.readWith at h
  rcases hf : f it.buffer with _ | ⟨v, rest⟩ <;> rw [hf] at h
  · injection h with h1 h2
    exact h2.symm
  · injection h with h1 h2
    exact Option.noConfusion h1

/-- Succeeding `read_*` helpers keep the remaining count. -/
theorem readWith_some_rest {α : Type} (f : List Nat → Option (α × List Nat))
    (it it' : PropertiesIter) (v : α) (h : PropertiesIter.readWith f it = (some v, it')) :
    it'.rest_properties = it.rest_properties := by
  unfold PropertiesIter.readWith at h
  rcases hf : f it.buffer with _ | ⟨w, rest⟩ <;> rw [hf] at h
  · injection h with h1 h2
    exact Option.noConfusion h1
  · injection h with h1 h2
    rw [← h2]

/-- Inversion for the `read_primitive_prop!` shape: a failing read zeroes the
remaining count, a successful one decrements it. -/
theorem read_primitive_prop_inv {α : Type} (read_fun : PropertiesIter → Option α × PropertiesIter)
    (variant : α → Property) (it : PropertiesIter) (r : Option Property) (it1 : PropertiesIter)
    (hnone : ∀ it', read_fun it = (none, it') → it'.rest_properties = 0)
    (hsome : ∀ v it', read_fun it = (some v, it') → it'.rest_properties = it.rest_properties)
    (h : PropertiesIter.read_primitive_prop read_fun variant it = (r, it1)) :
    (r = none → it1.rest_properties = 0) ∧
    (∀ v, r = some v → it1.rest_properties = it.rest_properties - 1) := by
  unfold PropertiesIter.read_primitive_prop at h
  rcases hf : read_fun it with ⟨o, it'⟩
  rw [hf] at h
  cases o with
  | none =>
    dsimp only at h
    injection h with h1 h2
    subst h1; subst h2
    exact ⟨fun _ => hnone _ hf, fun v hv => Option.noConfusion hv⟩
  | some v0 =>
    dsimp only at h
    injection h with h1 h2
    subst h1; subst h2
    refine ⟨fun hc => Option.noConfusion hc, fun v hv => ?_⟩
    dsimp only
    rw [hsome v0 _ hf]

/-- Shape of one iterator pull: a `None` yield always leaves the remaining
count at zero (so iteration is over), and a `Some` yield decrements it by
exactly one. -/
theorem next_shape (inflate : List Nat → Option (List Nat)) (it : PropertiesIter)
    (r : Option Property) (it1 : PropertiesIter)
    (h : PropertiesIter.next inflate it = (r, it1)) :
    (r = none → it1.rest_properties = 0) ∧
    (∀ v, r = some v → it1.rest_properties + 1 = it.rest_properties) := by
  by_cases h0 : it.rest_properties = 0
  · unfold PropertiesIter.next at h
    rw [if_pos h0] at h
    injection h with h1 h2
    subst h1; subst h2
    exact ⟨fun _ => h0, fun v hv => Option.noConfusion hv⟩
  · unfold PropertiesIter.next at h
    rw [if_neg h0] at h
    rcases hu : PropertiesIter.read_u8 it with ⟨ou, itu⟩
    rw [hu] at h
    cases ou with
    | none =>
      dsimp only at h
      injection h with h1 h2
      subst h1; subst h2
      have he := readWith_none_rest readU8 it _ hu
      exact ⟨fun _ => by rw [he], fun v hv => Option.noConfusion hv⟩
    | some tc =>
      dsimp only at h
      have hru : itu.rest_properties = it.rest_properties := readWith_some_rest readU8 it _ _ hu
      by_cases t1 : tc = 67
      · rw [if_pos t1] at h
        rcases hv : PropertiesIter.read_u8 itu with ⟨ov, itv⟩
        rw [hv] at h
        cases ov with
        | none =>
          dsimp only at h
          injection h with h1 h2
          subst h1; subst h2
          have he := readWith_none_rest readU8 itu _ hv
          exact ⟨fun _ => by rw [he], fun v hv' => Option.noConfusion hv'⟩
        | some val =>
          dsimp only at h
          injection h with h1 h2
          subst h1; subst h2
          have he := readWith_some_rest readU8 itu _ _ hv
          refine ⟨fun hc => Option.noConfusion hc, fun v hv' => ?_⟩
          dsimp only
          omega
      · rw [if_neg t1] at h
        by_cases t2 : tc = 89
        · rw [if_pos t2] at h
          obtain ⟨hn, hs⟩ := read_primitive_prop_inv _ _ _ _ _
            (fun it' hh => by rw [readWith_none_rest readI16LE itu it' hh])
            (fun v it' hh => readWith_some_rest readI16LE itu it' v hh) h
          exact ⟨hn, fun v hv' => by have := hs v hv'; omega⟩
        · rw [if_neg t2] at h
          by_cases t3 : tc = 73
          · rw [if_pos t3] at h
            obtain ⟨hn, hs⟩ := read_primitive_prop_inv _ _ _ _ _
              (fun it' hh => by rw [readWith_none_rest readI32LE itu it' hh])
              (fun v it' hh => readWith_some_rest readI32LE itu it' v hh) h
            exact ⟨hn, fun v hv' => by have := hs v hv'; omega⟩
          · rw [if_neg t3] at h
            by_cases t4 : tc = 76
            · rw [if_pos t4] at h
              obtain ⟨hn, hs⟩ := read_primitive_prop_inv _ _ _ _ _
                (fun it' hh => by rw [readWith_none_rest readI64LE itu it' hh])
                (fun v it' hh => readWith_some_rest readI64LE itu it' v hh) h
              exact ⟨hn, fun v hv' => by have := hs v hv'; omega⟩
            · rw [if_neg t4] at h
              by_cases t5 : tc = 70
              · rw [if_pos t5] at h
                obtain ⟨hn, hs⟩ := read_primitive_prop_inv _ _ _ _ _
                  (fun it' hh => by rw [readWith_none_rest readU32 itu it' hh])
                  (fun v it' hh => readWith_some_rest readU32 itu it' v hh) h
                exact ⟨hn, fun v hv' => by have := hs v hv'; omega⟩
              · rw [if_neg t5] at h
                by_cases t6 : tc = 68
                · rw [if_pos t6] at h
                  obtain ⟨hn, hs⟩ := read_primitive_prop_inv _ _ _ _ _
                    (fun it' hh => by rw [readWith_none_rest readU64 itu it' hh])
                    (fun v it' hh => readWith_some_rest readU64 itu it' v hh) h
                  exact ⟨hn, fun v hv' => by have := hs v hv'; omega⟩
                · rw [if_neg t6] at h
                  by_cases t7 : tc = 83
                  · rw [if_pos t7] at h
                    rcases hv : PropertiesIter.read_u32 itu with ⟨ov, itv⟩
                    rw [hv] at h
                    cases ov with
                    | none =>
                      dsimp only at h
                      injection h with h1 h2
                      subst h1; subst h2
                      have he := readWith_none_rest readU32 itu _ hv
                      exact ⟨fun _ => by rw [he], fun v hv' => Option.noConfusion hv'⟩
                    | some len =>
                      dsimp only at h
                      have hrv : itv.rest_properties = itu.rest_properties :=
                        readWith_some_rest readU32 itu _ _ hv
                      by_cases hl : itv.buffer.length < len
                      · rw [if_pos hl] at h
                        injection h with h1 h2
                        subst h1; subst h2
                        exact ⟨fun _ => rfl, fun v hv' => Option.noConfusion hv'⟩
                      · rw [if_neg hl] at h
                        rcases hd : utf8Decode (List.take len itv.buffer) with _ | cs <;>
                          rw [hd] at h <;>
                          (injection h with h1 h2; subst h1; subst h2) <;>
                          exact ⟨fun hc => Option.noConfusion hc,
                            fun v hv' => by dsimp only; omega⟩
                  · rw [if_neg t7] at h
                    by_cases t8 : tc = 82
                    · rw [if_pos t8] at h
                      rcases hv : PropertiesIter.read_u32 itu with ⟨ov, itv⟩
                      rw [hv] at h
                      cases ov with
                      | none =>
                        dsimp only at h
                        injection h with h1 h2
                        subst h1; subst h2
                        have he := readWith_none_rest readU32 itu _ hv
                        exact ⟨fun _ => by rw [he], fun v hv' => Option.noConfusion hv'⟩
                      | some len =>
                        dsimp only at h
                        have hrv : itv.rest_properties = itu.rest_properties :=
                          readWith_some_rest readU32 itu _ _ hv
                        by_cases hl : itv.buffer.length < len
                        · rw [if_pos hl] at h
                          injection h with h1 h2
                          subst h1; subst h2
                          exact ⟨fun _ => rfl, fun v hv' => Option.noConfusion hv'⟩
                        · rw [if_neg hl] at h
                          injection h with h1 h2
                          subst h1; subst h2
                          exact ⟨fun hc => Option.noConfusion hc,
                            fun v hv' => by dsimp only; omega⟩
                    · rw [if_neg t8] at h
                      by_cases t9 : tc = 98 ∨ tc = 105 ∨ tc = 108 ∨ tc = 102 ∨ tc = 100
                      · rw [if_pos t9] at h
                        rcases hh : ArrayHeader.from_binary itu.buffer with _ | ⟨header, len⟩ <;>
                          rw [hh] at h
                        · dsimp only at h
                          injection h with h1 h2
                          subst h1; subst h2
                          exact ⟨fun _ => rfl, fun v hv' => Option.noConfusion hv'⟩
                        · dsimp only at h
                          by_cases hl : (List.drop len itu.buffer).length < header.compressed_length
                          · rw [if_pos hl] at h
                            injection h with h1 h2
                            subst h1; subst h2
                            exact ⟨fun _ => rfl, fun v hv' => Option.noConfusion hv'⟩
                          · rw [if_neg hl] at h
                            rcases hp : read_property_array inflate
                                (List.take header.compressed_length (List.drop len itu.buffer))
                                header tc with _ | val <;> rw [hp] at h <;>
                              (injection h with h1 h2; subst h1; subst h2)
                            · exact ⟨fun _ => rfl, fun v hv' => Option.noConfusion hv'⟩
                            · exact ⟨fun hc => Option.noConfusion hc,
                                fun v hv' => by dsimp only; omega⟩
                      · rw [if_neg t9] at h
                        injection h with h1 h2
                        subst h1; subst h2
                        exact ⟨fun _ => rfl, fun v hv' => Option.noConfusion hv'⟩

/-- The number of values ever yielded is bounded by the remaining count. -/
theorem collect_length_le (inflate : List Nat → Option (List Nat)) :
    ∀ (fuel : Nat) (it : PropertiesIter),
      (PropertiesIter.collect inflate fuel it).length ≤ it.rest_properties := by
  intro fuel
  induction fuel with
  | zero => intro it; simp [PropertiesIter.collect]
  | succ n ih =>
    intro it
    rcases hn : PropertiesIter.next inflate it with ⟨r, it1⟩
    cases r with
    | none => simp [PropertiesIter.collect, hn]
    | some v =>
      have hs := (next_shape inflate it _ _ hn).2 v rfl
      have hrec := ih it1
      simp only [PropertiesIter.collect, hn, List.length_cons]
      omega

/-- C5: `size_hint` is always `(0, Some(remaining))`; a zero remaining count
means every pull yields `None` without change; any pull that yields `None`
(in particular after a short read anywhere in the buffer) leaves the
remaining count at zero, so all subsequent pulls also yield `None`; and the
iterator yields at most the declared number of properties. -/
theorem C5_truncation (inflate : List Nat → Option (List Nat)) (it : PropertiesIter) :
    PropertiesIter.size_hint it = (0, some it.rest_properties) ∧
    (it.rest_properties = 0 → PropertiesIter.next inflate it = (none, it)) ∧
    ((PropertiesIter.next inflate it).1 = none →
      ((PropertiesIter.next inflate it).2).rest_properties = 0) ∧
    (∀ fuel, (PropertiesIter.collect inflate fuel it).length ≤ it.rest_properties) := by
  refine ⟨rfl, ?_, ?_, fun fuel => collect_length_le inflate fuel it⟩
  · intro h0
    unfold PropertiesIter.next
    rw [if_pos h0]
  · intro hn
    exact (next_shape inflate it (PropertiesIter.next inflate it).1
      (PropertiesIter.next inflate it).2 rfl).1 hn

/-- Witness for C5: a `Y` (i16) property with only one payload byte is a short
read; the pull yields `None` with the remaining count forced to zero (from an
initial count of 5), and a zero count replays `None`. -/
theorem C5_truncation_witness :
    ((PropertiesIter.next (fun _ => none) ⟨[89, 7], 5⟩).2).rest_properties = 0 ∧
    PropertiesIter.next (fun _ => none) ⟨[13, 13], 0⟩ = (none, ⟨[13, 13], 0⟩) :=
  ⟨(C5_truncation (fun _ => none) ⟨[89, 7], 5⟩).2.2.1 (by decide),
   (C5_truncation (fun _ => none) ⟨[13, 13], 0⟩).2.1 rfl⟩

/-! ## C1: event balance -/

/-- Facts about one `nodes_next_body` step: the state field is untouched,
`StartFbx` is never produced, `EndFbx` only on an empty stack, `StartNode`
pushes exactly one end offset, `EndNode` pops exactly one. -/
theorem nodes_body_facts (p : Parser) (src : List Nat) (rn : Except PError FbxEvent)
    (pn : Parser) (srcn : List Nat)
    (h : Parser.nodes_next_body p src = (rn, pn, srcn)) :
    pn.state = p.state ∧
    (∀ v, rn ≠ .ok (.StartFbx v)) ∧
    (rn = .ok .EndFbx → p.end_offset_stack = []) ∧
    (∀ nm d, rn = .ok (.StartNode nm d) →
      pn.end_offset_stack.length = p.end_offset_stack.length + 1) ∧
    (rn = .ok .EndNode → p.end_offset_stack.length = pn.end_offset_stack.length + 1) := by
  unfold Parser.nodes_next_body at h
  rcases hr : NodeRecordHeader.read_from src p.pos p.version with ⟨pe1, pe2⟩ | ⟨hdr, pos1, src1⟩ <;>
    rw [hr] at h
  · try dsimp only at h
    injection h with h1 h23
    injection h23 with h2 h3
    subst h1; subst h2; subst h3
    exact ⟨rfl, fun v hv => Except.noConfusion hv, fun hv => Except.noConfusion hv,
           fun nm d hv => Except.noConfusion hv, fun hv => Except.noConfusion hv⟩
  · try dsimp only at h
    by_cases hnull : hdr.is_null_record = true
    · rw [if_pos hnull] at h
      rcases hstk : p.end_offset_stack with _ | ⟨expected, rest⟩ <;> rw [hstk] at h
      · try dsimp only at h
        injection h with h1 h23
        injection h23 with h2 h3
        subst h1; subst h2; subst h3
        exact ⟨rfl, fun v hv => by simp at hv, fun _ => rfl,
               fun nm d hv => by simp at hv, fun hv => by simp at hv⟩
      · try dsimp only at h
        by_cases hpos : pos1 = expected
        · rw [if_pos hpos] at h
          injection h with h1 h23
          injection h23 with h2 h3
          subst h1; subst h2; subst h3
          exact ⟨rfl, fun v hv => by simp at hv, fun hv => by simp at hv,
                 fun nm d hv => by simp at hv, fun _ => by simp⟩
        · rw [if_neg hpos] at h
          injection h with h1 h23
          injection h23 with h2 h3
          subst h1; subst h2; subst h3
          exact ⟨rfl, fun v hv => Except.noConfusion hv, fun hv => Except.noConfusion hv,
                 fun nm d hv => Except.noConfusion hv, fun hv => Except.noConfusion hv⟩
    · rw [if_neg hnull] at h
      try dsimp only at h
      rcases h4 : readExact hdr.name_len src1 with _ | ⟨nameBytes, src2⟩ <;> rw [h4] at h
      · try dsimp only at h
        injection h with h1 h23
        injection h23 with h2 h3
        subst h1; subst h2; subst h3
        exact ⟨rfl, fun v hv => Except.noConfusion hv, fun hv => Except.noConfusion hv,
               fun nm d hv => Except.noConfusion hv, fun hv => Except.noConfusion hv⟩
      · try dsimp only at h
        rcases h5 : utf8Decode nameBytes with _ | nm0 <;> rw [h5] at h
        · try dsimp only at h
          injection h with h1 h23
          injection h23 with h2 h3
          subst h1; subst h2; subst h3
          exact ⟨rfl, fun v hv => Except.noConfusion hv, fun hv => Except.noConfusion hv,
                 fun nm d hv => Except.noConfusion hv, fun hv => Except.noConfusion hv⟩
        · try dsimp only at h
          rcases h6 : readExact hdr.property_byte_len src2 with _ | ⟨propBytes, src3⟩ <;>
            rw [h6] at h
          · try dsimp only at h
            injection h with h1 h23
            injection h23 with h2 h3
            subst h1; subst h2; subst h3
            exact ⟨rfl, fun v hv => Except.noConfusion hv, fun hv => Except.noConfusion hv,
                   fun nm d hv => Except.noConfusion hv, fun hv => Except.noConfusion hv⟩
          · try dsimp only at h
            injection h with h1 h23
            injection h23 with h2 h3
            subst h1; subst h2; subst h3
            exact ⟨rfl, fun v hv => by simp at hv, fun hv => by simp at hv,
                   fun nm d hv => by simp, fun hv => by simp at hv⟩

/-- The facts of `nodes_body_facts` lifted over the defensive stack-top
pre-check of `nodes_next`. -/
theorem nodes_facts (p : Parser) (src : List Nat) (rn : Except PError FbxEvent)
    (pn : Parser) (srcn : List Nat)
    (h : Parser.nodes_next p src = (rn, pn, srcn)) :
    pn.state = p.state ∧
    (∀ v, rn ≠ .ok (.StartFbx v)) ∧
    (rn = .ok .EndFbx → p.end_offset_stack = []) ∧
    (∀ nm d, rn = .ok (.StartNode nm d) →
      pn.end_offset_stack.length = p.end_offset_stack.length + 1) ∧
    (rn = .ok .EndNode → p.end_offset_stack.length = pn.end_offset_stack.length + 1) := by
  unfold Parser.nodes_next at h
  rcases hstk : p.end_offset_stack with _ | ⟨top, rest⟩ <;> rw [hstk] at h
  · simpa [hstk] using nodes_body_facts p src rn pn srcn h
  · try dsimp only at h
    by_cases ht : top = p.pos
    · rw [if_pos ht] at h
      injection h with h1 h23
      injection h23 with h2 h3
      subst h1; subst h2; subst h3
      exact ⟨rfl, fun v hv => by simp at hv, fun hv => by simp at hv,
             fun nm d hv => by simp at hv, fun _ => by simp⟩
    · rw [if_neg ht] at h
      simpa [hstk] using nodes_body_facts p src rn pn srcn h

/-- The facts of `nodes_facts` lifted through the state post-processing of
`Parser::next`. -/
theorem next_nodes_facts (p : Parser) (src : List Nat) (r : Except PError FbxEvent)
    (p1 : Parser) (src1 : List Nat) (hp : p.state = .ReadingNodes)
    (h : Parser.next p src = (r, p1, src1)) :
    (∀ v, r ≠ .ok (.StartFbx v)) ∧
    (r = .ok .EndFbx → p.end_offset_stack = []) ∧
    (∀ nm d, r = .ok (.StartNode nm d) →
      p1.state = .ReadingNodes ∧ p1.end_offset_stack.length = p.end_offset_stack.length + 1) ∧
    (r = .ok .EndNode →
      p1.state = .ReadingNodes ∧ p.end_offset_stack.length = p1.end_offset_stack.length + 1) := by
  obtain ⟨st, ver, pos, stack⟩ := p
  replace hp : st = .ReadingNodes := hp
  subst hp
  simp only [Parser.next] at h
  rcases hn : Parser.nodes_next ⟨.ReadingNodes, ver, pos, stack⟩ src with ⟨rn, pn, srcn⟩
  rw [hn] at h
  obtain ⟨hstate, hnf, hef, hsn, hen⟩ := nodes_facts _ src rn pn srcn hn
  cases rn with
  | error e =>
    simp only [Parser.finishResult] at h
    injection h with h1 h23
    injection h23 with h2 h3
    subst h1; subst h2; subst h3
    exact ⟨fun v hv => Except.noConfusion hv, fun hv => Except.noConfusion hv,
           fun nm d hv => Except.noConfusion hv, fun hv => Except.noConfusion hv⟩
  | ok ev =>
    cases ev with
    | StartFbx v => exact absurd rfl (hnf v)
    | EndFbx =>
      simp only [Parser.finishResult] at h
      injection h with h1 h23
      injection h23 with h2 h3
      subst h1; subst h2; subst h3
      exact ⟨fun v hv => by simp at hv, fun _ => hef rfl,
             fun nm d hv => by simp at hv, fun hv => by simp at hv⟩
    | StartNode nm0 d0 =>
      simp only [Parser.finishResult] at h
      injection h with h1 h23
      injection h23 with h2 h3
      subst h1; subst h2; subst h3
      exact ⟨fun v hv => by simp at hv, fun hv => by simp at hv,
             fun nm d hv => ⟨hstate, hsn nm0 d0 rfl⟩, fun hv => by simp at hv⟩
    | EndNode =>
      simp only [Parser.finishResult] at h
      injection h with h1 h23
      injection h23 with h2 h3
      subst h1; subst h2; subst h3
      exact ⟨fun v hv => by simp at hv, fun hv => by simp at hv,
             fun nm d hv => by simp at hv, fun hv => ⟨hstate, hen rfl⟩⟩

/-- Facts about a successful `ReadingMagic` step: the only event is
`StartFbx`, the state moves to `ReadingNodes`, and the end-offset stack is
untouched. -/
theorem magic_step (p : Parser) (src : List Nat) (ev : FbxEvent) (p1 : Parser)
    (src1 : List Nat) (hp : p.state = .ReadingMagic)
    (h : Parser.next p src = (.ok ev, p1, src1)) :
    (∃ v, ev = .StartFbx v) ∧ p1.state = .ReadingNodes ∧
    p1.end_offset_stack = p.end_offset_stack := by
  obtain ⟨st, ver, pos, stack⟩ := p
  replace hp : st = .ReadingMagic := hp
  subst hp
  simp only [Parser.next] at h
  unfold Parser.magic_next at h
  rcases h1 : readExact 21 src with _ | ⟨magic, s1⟩ <;> rw [h1] at h
  · simp [Parser.finishResult] at h
  · try dsimp only at h
    by_cases hm : magic = fbxMagic
    · rw [if_neg (not_not_intro hm)] at h
      rcases h2 : readExact 2 s1 with _ | ⟨bts, s2⟩ <;> rw [h2] at h
      · simp [Parser.finishResult] at h
      · try dsimp only at h
        rcases h3 : readI32LE s2 with _ | ⟨version, s3⟩ <;> rw [h3] at h
        · simp [Parser.finishResult] at h
        · try dsimp only at h
          simp only [Parser.finishResult] at h
          injection h with h1' h23
          injection h23 with h2' h3'
          injection h1' with hev
          subst hev; subst h2'; subst h3'
          exact ⟨⟨version, rfl⟩, rfl, rfl⟩
    · rw [if_pos hm] at h
      simp [Parser.finishResult] at h

/-- Balance invariant of the node-reading loop: a successful run that starts
in `ReadingNodes` produces a node-event word that is balanced at the current
stack depth and ends in the single `EndFbx`. -/
theorem runFrom_nodes_balanced :
    ∀ (fuel : Nat) (p : Parser) (src : List Nat) (evs : List FbxEvent),
      p.state = .ReadingNodes →
      runFrom fuel p src = some (evs, none) →
      balancedTail evs p.end_offset_stack.length = true := by
  intro fuel
  induction fuel with
  | zero =>
    intro p src evs hp h
    simp [runFrom] at h
  | succ n ih =>
    intro p src evs hp h
    simp only [runFrom] at h
    rcases hx : Parser.next p src with ⟨r, p1, src1⟩
    rw [hx] at h
    obtain ⟨hnf, hef, hsn, hen⟩ := next_nodes_facts p src r p1 src1 hp hx
    cases r with
    | error e =>
      dsimp only at h
      simp at h
    | ok ev =>
      cases ev with
      | StartFbx v => exact absurd rfl (hnf v)
      | EndFbx =>
        have hst : p.end_offset_stack = [] := hef rfl
        dsimp only at h
        injection h with h'
        injection h' with h1 h2
        subst h1
        rw [hst]
        rfl
      | EndNode =>
        obtain ⟨hst1, hlen⟩ := hen rfl
        dsimp only at h
        rcases hr : runFrom n p1 src1 with _ | ⟨evs1, res⟩ <;> rw [hr] at h <;>
          try dsimp only at h
        · exact Option.noConfusion h
        · injection h with h'
          injection h' with h1 h2
          subst h1; subst h2
          have hb := ih p1 src1 evs1 hst1 hr
          rw [hlen]
          simpa [balancedTail] using hb
      | StartNode nm d =>
        obtain ⟨hst1, hlen⟩ := hsn nm d rfl
        dsimp only at h
        rcases hr : runFrom n p1 src1 with _ | ⟨evs1, res⟩ <;> rw [hr] at h <;>
          try dsimp only at h
        · exact Option.noConfusion h
        · injection h with h'
          injection h' with h1 h2
          subst h1; subst h2
          have hb := ih p1 src1 evs1 hst1 hr
          simp only [balancedTail]
          rw [← hlen]
          exact hb

/-- C1: every successful run of the parser from its initial state (however
much fuel it took) yields a balanced event list: exactly one leading
`StartFbx`, every `StartNode` matched by exactly one `EndNode` at the same
nesting depth, and exactly one closing `EndFbx`. -/
theorem C1_events_balanced (fuel : Nat) (src : List Nat) (evs : List FbxEvent)
    (h : runFrom fuel Parser.new src = some (evs, none)) : balanced evs = true := by
  cases fuel with
  | zero => simp [runFrom] at h
  | succ n =>
    simp only [runFrom] at h
    rcases hx : Parser.next Parser.new src with ⟨r, p1, src1⟩
    rw [hx] at h
    cases r with
    | error e =>
      dsimp only at h
      simp at h
    | ok ev =>
      obtain ⟨⟨v, hv⟩, hst, hstk⟩ := magic_step Parser.new src ev p1 src1 rfl hx
      subst hv
      dsimp only at h
      rcases hr : runFrom n p1 src1 with _ | ⟨evs1, res⟩ <;> rw [hr] at h <;>
        try dsimp only at h
      · exact Option.noConfusion h
      · injection h with h'
        injection h' with h1 h2
        subst h1; subst h2
        have hb := runFrom_nodes_balanced n p1 src1 evs1 hst hr
        rw [hstk] at hb
        simpa [balanced] using hb

/-- Witness for C1: a document with one empty node "A" runs to success and
its four events are balanced. -/
theorem C1_events_balanced_witness :
    balanced [.StartFbx 7400, .StartNode [65] ⟨[], 0⟩, .EndNode, .EndFbx] = true :=
  C1_events_balanced 5
    (fbxMagic ++ [26, 0] ++ [232, 28, 0, 0] ++
      ([54, 0, 0, 0] ++ List.replicate 8 0 ++ [1, 65]) ++
      List.replicate 13 0 ++ List.replicate 13 0)
    [.StartFbx 7400, .StartNode [65] ⟨[], 0⟩, .EndNode, .EndFbx] (by decide)
